import Mathlib

/-!
Verification of the doc-generation utilities in
`packages/api-docs-builder/buildApiUtils.ts`.

The module is embedded shallowly: JavaScript strings become Lean `String`
(a wrapper around `List Char`), the regular expressions of the source are
embedded as executable matching functions with the backtracking semantics
of JavaScript regexes (leftmost match, greedy quantifiers, ordered
alternation, `.` excluding line terminators), and the external
collaborators that are not part of this module (the `replaceComponentLinks`
link rewriter, the prettier formatting engine, the prettier config
resolver, the filesystem) are taken as parameters of the embedded
functions.
-/

/-- Characters excluded by the JavaScript regex `.` metacharacter
(line terminators). -/
def isNlClass (c : Char) : Bool :=
  c == '\n' || c == '\r' || c == '\u2028' || c == '\u2029'

/-- A character span consumable by a JavaScript `.*`: no line terminator. -/
def dotRun (l : List Char) : Bool := l.all (fun c => !isNlClass c)

/-- Index of the first (leftmost) occurrence of `needle` in `hay`,
as JavaScript `String.prototype.indexOf` / first regex match position:
the least `i` with `needle` a prefix of `hay.drop i`, scanned left to
right. -/
def firstIdx (hay needle : List Char) : Option Nat :=
  match hay with
  | [] => if needle.isPrefixOf [] then some 0 else none
  | c :: cs =>
    if needle.isPrefixOf (c :: cs) then some 0
    else (firstIdx cs needle).map Nat.succ

/-- Whether `needle` occurs as a contiguous substring of `hay`
(JavaScript `indexOf(...) !== -1`, or a regex match of a literal). -/
def containsSub (hay needle : List Char) : Bool := (firstIdx hay needle).isSome

/-- JavaScript `String.prototype.replace` with a plain-string pattern:
replaces only the first occurrence, at the list-of-characters level. -/
def jsReplaceFirstData (hay pat rep : List Char) : List Char :=
  match firstIdx hay pat with
  | none => hay
  | some i => hay.take i ++ rep ++ hay.drop (i + pat.length)

/-- JavaScript `s.replace(pat, rep)` with a plain-string pattern `pat`:
replaces only the first occurrence. -/
def jsReplaceFirst (s pat rep : String) : String :=
  ⟨jsReplaceFirstData s.data pat.data rep.data⟩

/-- JavaScript `s.replace(new RegExp(c, 'g'), d)` for a single literal
character `c`: global single-character replacement. -/
def jsReplaceAllChar (s : String) (old new : Char) : String :=
  ⟨s.data.map (fun c => if c == old then new else c)⟩

/-- JavaScript `s.startsWith(p)`. -/
def strStartsWith (s p : String) : Bool := p.data.isPrefixOf s.data

/-- JavaScript `s.replace(/^p/, '')` for a literal `p`: strips `p` from the
front when present, otherwise leaves `s` unchanged. -/
def stripAnchored (p s : String) : String :=
  if p.data.isPrefixOf s.data then ⟨s.data.drop p.data.length⟩ else s

/-- Modelled from the spec: the external case-conversion collaborator
(lodash `kebabCase`), which is not part of this repository.  Restricted to
the camelCase ASCII identifiers it is applied to here: a hyphen is
inserted before each uppercase letter that follows a lowercase letter or a
digit, and every letter is lowercased. -/
def kebabAux : Option Char → List Char → List Char
  | _, [] => []
  | prev, c :: cs =>
    let hyph : Bool := c.isUpper &&
      (match prev with
       | some p => p.isLower || p.isDigit
       | none => false)
    (if hyph then ['-', c.toLower] else [c.toLower]) ++ kebabAux (some c) cs

/-- Modelled from the spec: lodash `kebabCase` on camelCase ASCII input. -/
def kebabCase (s : String) : String := ⟨kebabAux none s.data⟩

/-- JavaScript `s.split('#')[0]`: the part of `s` before the first `'#'`
(the whole of `s` when there is no `'#'`). -/
def splitHashHead (s : String) : String :=
  ⟨s.data.takeWhile (fun c => c != '#')⟩

/-- A demo descriptor, as consumed by `getApiPath`
(`{ demoPageTitle: string; demoPathname: string }`). -/
structure Demo where
  demoPageTitle : String
  demoPathname : String

/-- Embeds `getApiPath` from `buildApiUtils.ts`: `null` for an empty demo
list; otherwise the first demo's `demoPathname` with the hash fragment
removed, then `hooks-api` or `components-api` by the `use`-test on `name`,
then `/#` and the kebab-cased `name`. -/
def getApiPath (demos : List Demo) (name : String) : Option String :=
  match demos with
  | [] => none
  | d :: _ =>
    some (splitHashHead d.demoPathname ++
      (if strStartsWith name "use" then "hooks-api" else "components-api") ++
      "/#" ++ kebabCase name)

/-- Embeds `getMuiName` from `buildApiUtils.ts`:
`` `Mui${name.replace('Styled', '')}` ``. -/
def getMuiName (name : String) : String :=
  "Mui" ++ jsReplaceFirst name "Styled" ""

/-- Embeds `fixPathname` from `buildApiUtils.ts`.  The external
`replaceComponentLinks` collaborator (repository code outside this module)
is passed in as `rcl`. -/
def fixPathname (rcl : String → String) (pathname : String) : String :=
  if strStartsWith pathname "/material" then
    rcl (stripAnchored "/material" pathname ++ "/")
  else if strStartsWith pathname "/joy" then
    jsReplaceFirst (rcl (stripAnchored "/joy" pathname ++ "/")) "material-ui" "joy-ui"
  else if strStartsWith pathname "/base" then
    jsReplaceFirst (jsReplaceFirst pathname "/base/" "/base-ui/") "/components/" "/react-" ++ "/"
  else
    jsReplaceFirst pathname "/components/" "/react-" ++ "/"

/-- The extension alternation `(js|tsx|ts|d\.ts)` of the
`extractPackageFile` regex, tried at the front of `t` (the regex is not
anchored at the end, so trailing text is allowed). -/
def extAlt (t : List Char) : Bool :=
  "js".data.isPrefixOf t || "tsx".data.isPrefixOf t ||
  "ts".data.isPrefixOf t || "d.ts".data.isPrefixOf t

/-- Matches `(?<name>[^\/]+)\.(js|tsx|ts|d\.ts)` at the front of `t`,
returning the `name` capture.  `[^/]+` is greedy, so the longest capture
whose following character is a dot heading a recognised extension wins. -/
def nameMatch (t : List Char) : Option (List Char) :=
  (List.range (t.takeWhile (fun c => c != '/')).length).reverse.findSome? fun w =>
    let v := w + 1
    if t.getD v ' ' == '.' && extAlt (t.drop (v + 1)) then some (t.take v) else none

/-- Matches `(.*\/)?(?<name>[^\/]+)\.(js|tsx|ts|d\.ts)` at the front of
`t`.  The optional group is tried first (greedy `?`), with its inner `.*`
greedy, so the latest feasible `/` is preferred; if no choice of the group
succeeds the group is skipped. -/
def tailMatch (t : List Char) : Option (List Char) :=
  ((List.range t.length).reverse.findSome? fun l =>
    if t.getD l ' ' == '/' && dotRun (t.take l) then nameMatch (t.drop (l + 1)) else none)
  <|> nameMatch t

/-- Matches `.*\/(?<packagePath>[^\/]+)\/src\/` followed by the tail
pattern at the front of `u` (the text after a `/packages` literal),
returning the `packagePath` and `name` captures.  The `.*` is greedy, so
the latest feasible `/` is preferred. -/
def pkgMatch (u : List Char) : Option (List Char × List Char) :=
  (List.range u.length).reverse.findSome? fun k =>
    if u.getD k ' ' == '/' && dotRun (u.take k) then
      let seg := (u.drop (k + 1)).takeWhile (fun c => c != '/')
      if seg.isEmpty then none
      else if "/src/".data.isPrefixOf (u.drop (k + 1 + seg.length)) then
        (tailMatch (u.drop (k + 1 + seg.length + 5))).map fun n => (seg, n)
      else none
    else none

/-- Matches the whole `extractPackageFile` regex with the match start
fixed at position `q` of `s`: `.*\/packages` then the package part, the
leading `.*` being greedy and unable to cross a line terminator. -/
def topMatchAt (s : List Char) (q : Nat) : Option (List Char × List Char) :=
  (List.range (s.length + 1 - q)).reverse.findSome? fun j =>
    let i := q + j
    if "/packages".data.isPrefixOf (s.drop i) && dotRun ((s.take i).drop q) then
      pkgMatch (s.drop (i + 9))
    else none

/-- JavaScript `s.match(re)` for the `extractPackageFile` regex: the
leftmost start position wins, captures at that position follow greedy
backtracking order. -/
def topMatch (s : List Char) : Option (List Char × List Char) :=
  (List.range (s.length + 1)).findSome? fun q => topMatchAt s q

/-- Result record of `extractPackageFile`; the JavaScript `undefined`
`muiPackage` (spread of an absent optional-chaining result) is `none`. -/
structure PackageFileInfo where
  packagePath : Option String
  name : Option String
  muiPackage : Option String
deriving DecidableEq

/-- Embeds `extractPackageFile` from `buildApiUtils.ts`, parameterised by
the platform path separator `sep` (`path.sep`): separators are first
globally normalised to `/`, then the fixed regex is matched; on a match,
`muiPackage` is the `packagePath` capture with its first `x-` occurrence
replaced by `mui-`. -/
def extractPackageFileWith (sep : Char) (filePath : String) : PackageFileInfo :=
  match topMatch (jsReplaceAllChar filePath sep '/').data with
  | none => ⟨none, none, none⟩
  | some pn => ⟨some ⟨pn.1⟩, some ⟨pn.2⟩, some (jsReplaceFirst ⟨pn.1⟩ "x-" "mui-")⟩

/-- `extractPackageFile` on a POSIX host (`path.sep = '/'`). -/
def extractPackageFile : String → PackageFileInfo := extractPackageFileWith '/'

/-- The `@ignore` marker recognised for internal components. -/
def ignoreComponentMarker : String := "@ignore - internal component."

/-- The `@ignore` marker recognised for internal hooks. -/
def ignoreHookMarker : String := "@ignore - internal hook."

/-- The `@ignore` marker recognised for undocumented files. -/
def ignoreDoNotDocumentMarker : String := "@ignore - do not document."

/-- The inline comment introducing an inherited component name. -/
def inheritedComponentMarker : String := "// @inheritedComponent "

/-- Result record of `parseFile`.  The `EOL` field of the source, computed
by the external `getLineFeed` collaborator, is not modelled. -/
structure ParsedFile where
  src : String
  shouldSkip : Bool
  spread : Bool
  inheritedComponent : Option String

/-- Embeds the pure core of `parseFile` from `buildApiUtils.ts`: the file
contents `src` (read from `filename` by the ambient filesystem) are passed
in explicitly.  `shouldSkip` is the filename `internal`-substring test or
any of the three `@ignore` markers in the contents; `spread` is the
absence of ` = exactProp(`; `inheritedComponent` is the rest of the line
after the first `// @inheritedComponent ` marker. -/
def parseFile (filename src : String) : ParsedFile :=
  { src := src
    shouldSkip :=
      containsSub filename.data "internal".data ||
      containsSub src.data ignoreComponentMarker.data ||
      containsSub src.data ignoreHookMarker.data ||
      containsSub src.data ignoreDoNotDocumentMarker.data
    spread := !containsSub src.data " = exactProp(".data
    inheritedComponent :=
      (firstIdx src.data inheritedComponentMarker.data).map fun i =>
        ⟨(src.data.drop (i + inheritedComponentMarker.data.length)).takeWhile
          (fun c => !isNlClass c)⟩ }

/-- The synthetic type-alias header `formatType` wraps its input in. -/
def typeHeader : String := "type FakeType = "

/-- JavaScript `s.replace(/\n$/, '')`: removes one trailing newline. -/
def stripOneNl (s : String) : String :=
  if s.data.getLast? = some '\n' then ⟨s.data.dropLast⟩ else s

/-- Embeds `formatType` from `buildApiUtils.ts`, parameterised by the
external prettier formatting engine `fmt` (applied with the fixed style
configuration of the source): empty input yields the empty string,
otherwise the input is wrapped in the synthetic header, formatted, the
header sliced off, and one trailing newline removed. -/
def formatType (fmt : String → String) (rawType : String) : String :=
  if rawType = "" then ""
  else stripOneNl ⟨(fmt (typeHeader ++ rawType)).data.drop typeHeader.data.length⟩

/-- `fs.writeFileSync` over an association-list filesystem model: the new
binding for `name` shadows any previous one. -/
def writeFileSync (fs : List (String × String)) (name contents : String) :
    List (String × String) :=
  (name, contents) :: fs

/-- Embeds `writePrettifiedFile` from `buildApiUtils.ts`, parameterised by
the external config resolver r (`prettier.resolveConfig.sync`, applied to
the target filename and the config path) and formatting engine `format`.
The result pairs the thrown error message (if any) with the filesystem
after the call: a `none` config resolution throws before anything is
written. -/
def writePrettifiedFile {α : Type} (r : String → String → Option α)
    (format : α → String → String → String)
    (filename data prettierConfigPath : String)
    (fs : List (String × String)) :
    Option String × List (String × String) :=
  match r filename prettierConfigPath with
  | none =>
    (some ("Could not resolve config for \x27" ++ filename ++
      "\x27 using prettier config path \x27" ++ prettierConfigPath ++ "\x27."), fs)
  | some cfg => (none, writeFileSync fs filename (format cfg filename data))

/-- Independent specification-side formulation, for comparison with the
embedded `jsReplaceFirst`: removes the first occurrence of `pat` from a
list by structural recursion. -/
def removeFirstSub (pat : List Char) : List Char → List Char
  | [] => []
  | c :: cs =>
    if pat.isPrefixOf (c :: cs) then (c :: cs).drop pat.length
    else c :: removeFirstSub pat cs

/-- A constant formatting engine, used to instantiate engine-parameterised
theorems at a concrete input. -/
def constFmt : String → String := fun _ => "type FakeType = ok"

theorem isPrefixOf_eq_true_iff {l₁ l₂ : List Char} :
    l₁.isPrefixOf l₂ = true ↔ l₁ <+: l₂ := List.isPrefixOf_iff_prefix

theorem containsSub_iff_infix (hay needle : List Char) :
    containsSub hay needle = true ↔ needle <:+: hay := by
  induction hay with
  | nil =>
    cases h : needle.isPrefixOf ([] : List Char) with
    | true =>
      have hn : needle = [] := List.prefix_nil.mp (isPrefixOf_eq_true_iff.mp h)
      simp [containsSub, firstIdx, hn]
    | false =>
      have hne : needle ≠ [] := by
        intro h0
        rw [h0] at h
        simp [List.isPrefixOf] at h
      simp [containsSub, firstIdx, h]
      intro hinf
      exact hne hinf
  | cons c cs ih =>
    cases h : needle.isPrefixOf (c :: cs) with
    | true =>
      simp [containsSub, firstIdx, h]
      exact (isPrefixOf_eq_true_iff.mp h).isInfix
    | false =>
      have hnotpre : ¬needle <+: (c :: cs) := by
        intro hp
        rw [isPrefixOf_eq_true_iff.mpr hp] at h
        exact Bool.true_eq_false.mp h
      have hmap : (Option.map Nat.succ (firstIdx cs needle)).isSome
          = (firstIdx cs needle).isSome := by
        cases firstIdx cs needle <;> rfl
      simp only [containsSub, firstIdx, h, Bool.false_eq_true, if_false, hmap]
      rw [containsSub] at ih
      rw [ih]
      constructor
      · intro hi
        exact hi.trans (List.suffix_cons c cs).isInfix
      · intro hi
        rcases List.infix_cons_iff.mp hi with hp | hs
        · exact absurd hp hnotpre
        · exact hs

theorem jsReplaceFirstData_eq_removeFirstSub {pat : List Char} (hp : pat ≠ []) :
    ∀ hay, jsReplaceFirstData hay pat [] = removeFirstSub pat hay := by
  intro hay
  induction hay with
  | nil =>
    cases pat with
    | nil => exact absurd rfl hp
    | cons p ps => rfl
  | cons c cs ih =>
    cases h : pat.isPrefixOf (c :: cs) with
    | true =>
      simp [jsReplaceFirstData, firstIdx, removeFirstSub, h]
    | false =>
      rw [jsReplaceFirstData] at ih ⊢
      simp only [firstIdx, h, Bool.false_eq_true, if_false, removeFirstSub]
      cases hfi : firstIdx cs pat with
      | none =>
        rw [hfi] at ih
        simp [← ih]
      | some i =>
        rw [hfi] at ih
        simp only [Option.map_some, ← ih]
        show (c :: cs).take (i + 1) ++ [] ++ (c :: cs).drop (i + 1 + pat.length)
            = c :: (cs.take i ++ [] ++ cs.drop (i + pat.length))
        rw [List.take_succ_cons]
        have : i + 1 + pat.length = (i + pat.length) + 1 := by omega
        rw [this, List.drop_succ_cons]
        simp

theorem firstIdx_eq_none_of_not_contains {hay pat : List Char}
    (h : containsSub hay pat = false) : firstIdx hay pat = none := by
  rw [containsSub] at h
  exact Option.not_isSome_iff_eq_none.mp (by simp [h])

theorem jsReplaceFirst_of_not_contains {s pat rep : String}
    (h : containsSub s.data pat.data = false) : jsReplaceFirst s pat rep = s := by
  rw [jsReplaceFirst, jsReplaceFirstData, firstIdx_eq_none_of_not_contains h]

theorem startsWith_false_of_char_ne {p : String} {q r : List Char} {i : Nat}
    (hq : q.isPrefixOf p.data = true) (hiq : i < q.length) (hir : i < r.length)
    (hne : q.getD i ' ' ≠ r.getD i ' ') : r.isPrefixOf p.data = false := by
  cases hr : r.isPrefixOf p.data with
  | false => rfl
  | true =>
    exfalso
    obtain ⟨t, ht⟩ := isPrefixOf_eq_true_iff.mp hq
    obtain ⟨u, hu⟩ := isPrefixOf_eq_true_iff.mp hr
    have h1 : p.data.getD i ' ' = q.getD i ' ' := by
      rw [← ht]
      exact List.getD_append _ _ _ _ hiq
    have h2 : p.data.getD i ' ' = r.getD i ' ' := by
      rw [← hu]
      exact List.getD_append _ _ _ _ hir
    exact hne (h1.symm.trans h2)

theorem typeHeader_append_stripOneNl (s : String) :
    typeHeader ++ stripOneNl s = stripOneNl (typeHeader ++ s) := by
  by_cases h : s.data.getLast? = some '\n'
  · have hne : ¬s.data.isEmpty = true := by
      intro h0
      rw [List.isEmpty_iff.mp h0] at h
      simp at h
    have hlast : (typeHeader ++ s).data.getLast? = some '\n' := by
      rw [String.data_append, List.getLast?_append, h]
      rfl
    rw [stripOneNl, stripOneNl, if_pos h, if_pos hlast]
    apply String.ext
    rw [String.data_append, String.data_append, List.dropLast_append]
    simp [hne]
  · have hlast : ¬(typeHeader ++ s).data.getLast? = some '\n' := by
      rw [String.data_append, List.getLast?_append]
      cases hgl : s.data.getLast? with
      | none =>
        simp only [Option.or]
        decide
      | some x =>
        have hx : x ≠ '\n' := by
          intro hx0
          exact h (by rw [hgl, hx0])
        simp [Option.or]
        exact hx
    rw [stripOneNl, stripOneNl, if_neg h, if_neg hlast]

/-- C1: `getApiPath` returns `none` exactly when the demo list is empty;
for a non-empty list it returns the first demo's `demoPathname` truncated
at the first `#` character, followed by `hooks-api` when the name starts
with `use` and `components-api` otherwise, followed by `/#` and the
kebab-cased name; in particular the two documented examples hold. -/
theorem c1_getApiPath_spec :
    (∀ (demos : List Demo) (name : String), getApiPath demos name = none ↔ demos = [])
    ∧ (∀ (d : Demo) (ds : List Demo) (name : String),
      getApiPath (d :: ds) name =
        some (⟨d.demoPathname.data.takeWhile (fun c => c != '#')⟩ ++
          (if "use".data.isPrefixOf name.data then "hooks-api" else "components-api") ++
          "/#" ++ kebabCase name))
    ∧ getApiPath [] "useButton" = none
    ∧ getApiPath [⟨"t", "/docs/button/#hooks"⟩] "useButton"
        = some "/docs/button/hooks-api/#use-button" := by
  refine ⟨?_, ?_, rfl, by decide⟩
  · intro demos name
    cases demos <;> simp [getApiPath]
  · intro d ds name
    rfl

/-- C3: `getMuiName` equals `Mui` concatenated with the name after
removing only the first literal occurrence of the substring `Styled`
anywhere in the name (removal happens before the prefixing), compared
against an independent structural-recursion formulation of
first-occurrence removal; both documented examples hold. -/
theorem c3_getMuiName_spec :
    (∀ name : String,
      getMuiName name = ⟨"Mui".data ++ removeFirstSub "Styled".data name.data⟩)
    ∧ getMuiName "StyledButton" = "MuiButton"
    ∧ getMuiName "Button" = "MuiButton" := by
  refine ⟨?_, by decide, by decide⟩
  intro name
  apply String.ext
  show ("Mui" ++ jsReplaceFirst name "Styled" "").data
      = "Mui".data ++ removeFirstSub "Styled".data name.data
  rw [String.data_append]
  congr 1
  exact jsReplaceFirstData_eq_removeFirstSub (by decide) name.data

/-- C4: `parseFile`'s `shouldSkip` is true exactly when the filename
contains the substring `internal` or the contents contain one of the three
`@ignore` marker texts; a file containing the internal-component marker is
skipped. -/
theorem c4_parseFile_shouldSkip_spec :
    (∀ filename src : String,
      ((parseFile filename src).shouldSkip = true ↔
        ("internal".data <:+: filename.data ∨
          ignoreComponentMarker.data <:+: src.data ∨
          ignoreHookMarker.data <:+: src.data ∨
          ignoreDoNotDocumentMarker.data <:+: src.data)))
    ∧ (parseFile "Button.tsx" "// @ignore - internal component.").shouldSkip = true := by
  refine ⟨?_, by decide⟩
  intro filename src
  simp [parseFile, Bool.or_eq_true, containsSub_iff_infix, or_assoc]

/-- C5: for every pathname starting with none of `/material`, `/joy`,
`/base`, `fixPathname` executes only its fourth branch: the first
`/components/` is replaced by `/react-` and a single trailing slash is
appended, with no other rewriting. -/
theorem c5_fixPathname_default_branch (rcl : String → String) (pathname : String)
    (h₁ : strStartsWith pathname "/material" = false)
    (h₂ : strStartsWith pathname "/joy" = false)
    (h₃ : strStartsWith pathname "/base" = false) :
    fixPathname rcl pathname = jsReplaceFirst pathname "/components/" "/react-" ++ "/" := by
  simp [fixPathname, h₁, h₂, h₃]

/-- C5 witness: the default branch at a concrete pathname. -/
theorem c5_fixPathname_default_branch_witness :
    strStartsWith "/docs/components/Chip" "/material" = false
    ∧ strStartsWith "/docs/components/Chip" "/joy" = false
    ∧ strStartsWith "/docs/components/Chip" "/base" = false
    ∧ fixPathname (fun s => s) "/docs/components/Chip"
        = jsReplaceFirst "/docs/components/Chip" "/components/" "/react-" ++ "/" :=
  ⟨by decide, by decide, by decide,
    c5_fixPathname_default_branch (fun s => s) "/docs/components/Chip"
      (by decide) (by decide) (by decide)⟩

/-- C6: when resolving the formatter configuration yields `none`,
`writePrettifiedFile` throws synchronously an error whose message names
both the target filename and the config path, and the filesystem is
unchanged. -/
theorem c6_writePrettifiedFile_noConfig {α : Type} (r : String → String → Option α)
    (format : α → String → String → String)
    (filename data prettierConfigPath : String)
    (fs : List (String × String)) (h : r filename prettierConfigPath = none) :
    writePrettifiedFile r format filename data prettierConfigPath fs =
      (some ("Could not resolve config for \x27" ++ filename ++
        "\x27 using prettier config path \x27" ++ prettierConfigPath ++ "\x27."), fs) := by
  simp [writePrettifiedFile, h]

/-- C6 witness: a resolver that finds no configuration, at concrete
arguments; the target file's contents are untouched. -/
theorem c6_writePrettifiedFile_noConfig_witness :
    writePrettifiedFile (fun _ _ => (none : Option Unit)) (fun _ _ _ => "")
      "a.ts" "const x = 1" "prettier.config.js" [("a.ts", "old")] =
      (some ("Could not resolve config for \x27" ++ "a.ts" ++
        "\x27 using prettier config path \x27" ++ "prettier.config.js" ++ "\x27."),
        [("a.ts", "old")]) :=
  c6_writePrettifiedFile_noConfig _ _ _ _ _ _ rfl

/-- C7: when the package-file regex does not match the normalised path,
`extractPackageFile` returns `packagePath` and `name` null and an absent
`muiPackage`, and does not fail. -/
theorem c7_extractPackageFile_noMatch (sep : Char) (filePath : String)
    (h : topMatch (jsReplaceAllChar filePath sep '/').data = none) :
    extractPackageFileWith sep filePath = ⟨none, none, none⟩ := by
  simp [extractPackageFileWith, h]

/-- C7 witness: the documented example `/no/match/here.ts`. -/
theorem c7_extractPackageFile_noMatch_witness :
    topMatch (jsReplaceAllChar "/no/match/here.ts" '/' '/').data = none
    ∧ extractPackageFile "/no/match/here.ts" = ⟨none, none, none⟩ :=
  ⟨by decide, c7_extractPackageFile_noMatch '/' "/no/match/here.ts" (by decide)⟩

/-- C9: the embedded `extractPackageFile` (at any fixed path-separator
convention) and `fixPathname` are deterministic: two invocations on the
same input produce identical outputs; in the pure embedding there is no
hidden state. -/
theorem c9_deterministic :
    (∀ (sep : Char) (filePath : String),
      extractPackageFileWith sep filePath = extractPackageFileWith sep filePath)
    ∧ (∀ (rcl : String → String) (pathname : String),
      fixPathname rcl pathname = fixPathname rcl pathname) :=
  ⟨fun _ _ => rfl, fun _ _ => rfl⟩

/-- C2 counterexample: on `/a/packages/box-foo/src/File.ts` the captured
package directory `box-foo` does not begin with `x-`, yet `muiPackage` is
not returned unchanged: the `x-` inside `box-foo` is replaced, giving
`bomui-foo`. -/
theorem c2_muiPackage_counterexample :
    (extractPackageFile "/a/packages/box-foo/src/File.ts").packagePath = some "box-foo"
    ∧ strStartsWith "box-foo" "x-" = false
    ∧ (extractPackageFile "/a/packages/box-foo/src/File.ts").muiPackage = some "bomui-foo"
    ∧ (extractPackageFile "/a/packages/box-foo/src/File.ts").muiPackage ≠ some "box-foo" :=
  ⟨by decide, by decide, by decide, by decide⟩

/-- C2 (amended): whenever the pattern matches, `muiPackage` equals the
captured package directory with its first occurrence of `x-` anywhere
(not only a leading one) replaced by `mui-`; the documented `x-data-grid`
example holds. -/
theorem c2_muiPackage_spec :
    (∀ (sep : Char) (filePath : String),
      (extractPackageFileWith sep filePath).muiPackage =
        ((extractPackageFileWith sep filePath).packagePath).map
          (fun p => jsReplaceFirst p "x-" "mui-"))
    ∧ extractPackageFile "/repo/packages/x-data-grid/src/DataGrid/DataGrid.tsx" =
        ⟨some "x-data-grid", some "DataGrid", some "mui-data-grid"⟩ := by
  refine ⟨?_, by decide⟩
  intro sep filePath
  cases h : topMatch (jsReplaceAllChar filePath sep '/').data with
  | none => simp [extractPackageFileWith, h]
  | some pn => simp [extractPackageFileWith, h]

/-- C10 counterexample: `/basement/base/components/a` has a first segment
that merely begins with `base`, so the claim puts it in scope; the `/base`
branch executes, but the `/base/` → `/base-ui/` replacement is not a no-op
(it rewrites the later `/base/` segment), and the result differs from the
one the claim predicts. -/
theorem c10_base_branch_counterexample :
    strStartsWith "/basement/base/components/a" "/base" = true
    ∧ strStartsWith "/basement/base/components/a" "/base/" = false
    ∧ "/basement/base/components/a" ≠ "/base"
    ∧ fixPathname (fun s => s) "/basement/base/components/a"
        = "/basement/base-ui/react-a/"
    ∧ fixPathname (fun s => s) "/basement/base/components/a"
        ≠ jsReplaceFirst "/basement/base/components/a" "/components/" "/react-" ++ "/" :=
  ⟨by decide, by decide, by decide, by decide, by decide⟩

/-- C10 (amended): `fixPathname` selects its branch by raw string-prefix
tests.  For every pathname starting with `/base` in which the substring
`/base/` does not occur at all, the `/base/` → `/base-ui/` replacement is
a no-op and the result is the pathname with the first `/components/`
replaced by `/react-` plus a trailing slash; analogously, any pathname
starting with `/material` takes the first branch and any pathname
starting with `/joy` takes the second. -/
theorem c10_fixPathname_prefix_capture :
    (∀ (rcl : String → String) (p : String),
      strStartsWith p "/base" = true →
      containsSub p.data "/base/".data = false →
      fixPathname rcl p = jsReplaceFirst p "/components/" "/react-" ++ "/")
    ∧ (∀ (rcl : String → String) (p : String),
      strStartsWith p "/material" = true →
      fixPathname rcl p = rcl (stripAnchored "/material" p ++ "/"))
    ∧ (∀ (rcl : String → String) (p : String),
      strStartsWith p "/joy" = true →
      fixPathname rcl p =
        jsReplaceFirst (rcl (stripAnchored "/joy" p ++ "/")) "material-ui" "joy-ui") := by
  refine ⟨?_, ?_, ?_⟩
  · intro rcl p hb hnb
    have hm : strStartsWith p "/material" = false :=
      startsWith_false_of_char_ne (q := "/base".data) (i := 1) hb
        (by decide) (by decide) (by decide)
    have hj : strStartsWith p "/joy" = false :=
      startsWith_false_of_char_ne (q := "/base".data) (i := 1) hb
        (by decide) (by decide) (by decide)
    simp only [fixPathname, hm, hj, hb, Bool.false_eq_true, if_false, if_true]
    rw [jsReplaceFirst_of_not_contains hnb]
  · intro rcl p hm
    simp [fixPathname, hm]
  · intro rcl p hj
    have hm : strStartsWith p "/material" = false :=
      startsWith_false_of_char_ne (q := "/joy".data) (i := 1) hj
        (by decide) (by decide) (by decide)
    simp [fixPathname, hm, hj]

/-- C10 witness: a pathname whose first segment merely begins with `base`
and which contains no `/base/` substring. -/
theorem c10_fixPathname_prefix_capture_witness :
    strStartsWith "/basement/components/Chip" "/base" = true
    ∧ containsSub "/basement/components/Chip".data "/base/".data = false
    ∧ fixPathname (fun s => s) "/basement/components/Chip"
        = jsReplaceFirst "/basement/components/Chip" "/components/" "/react-" ++ "/" :=
  ⟨by decide, by decide,
    c10_fixPathname_prefix_capture.1 (fun s => s) "/basement/components/Chip"
      (by decide) (by decide)⟩

/-- C8: `formatType` is idempotent on its own output, for every formatting
engine that (a) returns output beginning with the synthetic `type
FakeType = ` header when its input begins with it, and (b) is stable under
reformatting its own output modulo the single trailing newline stripped by
`formatType`.  These are the stable-formatting properties of prettier
under the fixed configuration the source always passes. -/
theorem c8_formatType_idempotent (fmt : String → String)
    (h1 : ∀ s : String, typeHeader.data.isPrefixOf (fmt (typeHeader ++ s)).data = true)
    (h2 : ∀ s : String, fmt (stripOneNl (fmt s)) = fmt s)
    (rawType : String) :
    formatType fmt (formatType fmt rawType) = formatType fmt rawType := by
  by_cases hr : rawType = ""
  · subst hr
    rfl
  · obtain ⟨rest, hrest⟩ := isPrefixOf_eq_true_iff.mp (h1 rawType)
    have hdrop : (fmt (typeHeader ++ rawType)).data.drop typeHeader.data.length = rest := by
      rw [← hrest, List.drop_left]
    have hform : formatType fmt rawType = stripOneNl ⟨rest⟩ := by
      simp only [formatType, hr, if_false]
      rw [hdrop]
    by_cases h0 : stripOneNl ⟨rest⟩ = ""
    · rw [hform, h0]
      rfl
    · have hth : typeHeader ++ stripOneNl ⟨rest⟩
          = stripOneNl (fmt (typeHeader ++ rawType)) := by
        rw [typeHeader_append_stripOneNl]
        congr 1
        apply String.ext
        rw [String.data_append]
        exact hrest
      rw [hform]
      simp only [formatType, h0, if_false]
      rw [hth, h2 (typeHeader ++ rawType), hdrop]

/-- C8 witness: the engine hypotheses and the conclusion at a concrete
constant engine and input. -/
theorem c8_formatType_idempotent_witness :
    formatType constFmt (formatType constFmt "string | number")
      = formatType constFmt "string | number" :=
  c8_formatType_idempotent constFmt (fun _ => rfl) (fun _ => rfl) "string | number"
